import Mathlib

/-!
Verification of the permission correlation engine of `happy-cli`
(`src/index.ts`, function `startPermissionResolver`).

The correlator is single-threaded and event-driven: every mutation happens
inside one synchronous callback (a submit call, an inbound SDK message, a
decision message, a timer callback, or a reset).  We embed it as a state
machine `CorrState` with a step function `stepEv` over those five event
kinds.  Timers are modelled explicitly: `setTimeout` allocates a fresh
timer id and arms it, `clearTimeout` disarms it, and a `fire` event runs
the armed callback at most once.  Promise resolutions and rejections
delivered to `submit` callers are recorded in an `outcomes` log, keyed by
a fresh per-submit caller id (the identity of the promise).  Timestamps
(`createdAt`, `completedAt`, real 30-second and 4.5-minute durations) are
not modelled; a deadline elapsing is exactly the `fire` event of the
corresponding armed timer.

Tool arguments are JSON payloads compared with `deepEqual`
(`src/utils/deepEqual`, a pure structural deep equality); we model the
payload type as a parameter `α` with decidable equality, so structural
equality is propositional equality on `α`.
-/

namespace HappyCLI

/-- One entry of the tool-call ledger (`toolCalls` in `startPermissionResolver`). -/
structure ToolCall (α : Type) where
  id : String
  name : String
  input : α
  used : Bool
deriving DecidableEq

/-- Result of the reverse scan performed by `resolveToolCallId`: the scan walks
the ledger from the most recently appended entry backwards and stops at the
first structural match; it reports the claimed id, the position of the claimed
entry and the updated ledger on success, `blocked` when the first structural
match found was already consumed (the loop returns null from inside the match),
and `notFound` when no entry matches at all. -/
inductive ScanResult (α : Type) where
  | found (id : String) (idx : Nat) (calls : List (ToolCall α))
  | blocked
  | notFound
deriving DecidableEq

/-- The reverse-scan loop body of `resolveToolCallId` (`src/index.ts`).  The
list is ordered oldest first, as in the source (`toolCalls.push` appends), and
the loop runs from the last index down to 0, so the recursion first tries the
tail (the more recent entries) and examines the head only when the tail has no
structural match at all. -/
def resolveGo [DecidableEq α] (name : String) (args : α) :
    List (ToolCall α) → ScanResult α
  | [] => .notFound
  | c :: rest =>
    match resolveGo name args rest with
    | .found i j rest' => .found i (j + 1) (c :: rest')
    | .blocked => .blocked
    | .notFound =>
      if c.name = name ∧ c.input = args then
        if c.used then .blocked
        else .found c.id 0 ({ c with used := true } :: rest)
      else .notFound

/-- `resolveToolCallId(name, args)` from `src/index.ts`: returns the claimed id
(or none) together with the ledger after the scan (the source mutates
`toolCalls` in place; marking happens atomically inside the scan). -/
def resolveToolCallId [DecidableEq α] (name : String) (args : α)
    (calls : List (ToolCall α)) : Option String × List (ToolCall α) :=
  match resolveGo name args calls with
  | .found i _ calls' => (some i, calls')
  | _ => (none, calls)

/-- The tool-result branch of `onMessage`: `toolCalls.find(tc => tc.id ===
block.tool_use_id)` takes the first entry with the given id and flips `used`
to true when it was false. -/
def markConsumedByResult (tid : String) : List (ToolCall α) → List (ToolCall α)
  | [] => []
  | c :: rest =>
    if c.id = tid then
      (if c.used then c :: rest else { c with used := true } :: rest)
    else c :: markConsumedByResult tid rest

/-- An entry of `pendingPermissionRequests`: a submit call that found no ledger
match and is waiting, with its 30-second timer.  `callerId` stands for the
identity of the queued request object and of the promise its caller awaits. -/
structure QueuedReq (α : Type) where
  reqName : String
  reqArgs : α
  callerId : Nat
  timerId : Nat
deriving DecidableEq

/-- The four permission modes of a decision message. -/
inductive PermMode where
  | default
  | acceptEdits
  | bypassPermissions
  | plan
deriving DecidableEq

/-- An inbound decision message (`PermissionResponse` in `src/index.ts`). -/
structure Decision where
  id : String
  approved : Bool
  reason : Option String
  mode : Option PermMode
deriving DecidableEq

/-- An entry of the `requests` map: a pending decision keyed by tool-call id.
`isPlanExit` records whether the stored resolver is the plan-exit
`wrappedResolve`; `timerId` is the armed 4.5-minute decision timer. -/
structure PendingDecision where
  callerId : Nat
  isPlanExit : Bool
  timerId : Nat
deriving DecidableEq

/-- What a timer callback does when it fires: the 30-second queue deadline of
one queued request, or the 4.5-minute decision deadline of one request id. -/
inductive TimerJob where
  | queueTimeout (callerId : Nat)
  | decisionTimeout (id : String)
deriving DecidableEq

/-- An armed timer. -/
structure Timer where
  tid : Nat
  job : TimerJob
deriving DecidableEq

/-- A resolution delivered to a submit caller: either the promise resolved
with a decision payload, or it was rejected with the queue-deadline error
(`Timeout: Tool call ID never arrived for ...`). -/
inductive Outcome where
  | resolved (approved : Bool) (reason : Option String) (mode : Option PermMode)
  | toolCallNeverArrived (toolName : String)
deriving DecidableEq

/-- Terminal statuses of the externally synchronized request state. -/
inductive ReqStatus where
  | approved
  | denied
  | canceled
deriving DecidableEq

/-- A pending entry of `agentState.requests` (timestamps are not modelled). -/
structure ReqInfo (α : Type) where
  tool : String
  arguments : α
deriving DecidableEq

/-- A terminal entry of `agentState.completedRequests`. -/
structure CompletedInfo (α : Type) where
  tool : String
  arguments : α
  status : ReqStatus
  reason : Option String
deriving DecidableEq

/-- The externally synchronized session state, as far as the correlator
touches it through `updateAgentState`: the pending and the completed request
tables, both keyed by tool-call id.  JavaScript objects have unique keys; we
embed them as association lists whose update and delete operate on the key. -/
structure AgentState (α : Type) where
  requests : List (String × ReqInfo α)
  completedRequests : List (String × CompletedInfo α)
deriving DecidableEq

/-- Key lookup in an association list (embedding of `map.get` / `obj[id]`). -/
def alookup [DecidableEq κ] (k : κ) : List (κ × β) → Option β
  | [] => none
  | (k', v) :: rest => if k' = k then some v else alookup k rest

/-- Key removal (embedding of `map.delete` / `delete obj[id]`). -/
def aerase [DecidableEq κ] (k : κ) (l : List (κ × β)) : List (κ × β) :=
  l.filter (fun p => p.1 ≠ k)

/-- Key update (embedding of `map.set` / `{...obj, [id]: v}`). -/
def aset [DecidableEq κ] (k : κ) (v : β) (l : List (κ × β)) : List (κ × β) :=
  (k, v) :: aerase k l

/-- Modelled from the spec: the well-known plan-rejection sentinel
(`PLAN_FAKE_REJECT`, exported by the sdk prompts module, which is not among
the given sources).  Only its identity matters. -/
def PLAN_FAKE_REJECT : String := "PLAN_FAKE_REJECT sentinel"

/-- Modelled from the spec: the synthetic restart instruction
(`PLAN_FAKE_RESTART`, exported by the sdk prompts module, which is not among
the given sources).  Only its identity matters. -/
def PLAN_FAKE_RESTART : String := "PLAN_FAKE_RESTART instruction"

/-- The whole correlator state: the private fields of
`startPermissionResolver`, the externally synchronized agent state, the
session instruction queue, and ghost logs (`outcomes`, `matchLog`,
`scanClaims`, `notifications`) that record observable effects without
influencing any transition. -/
structure CorrState (α : Type) where
  toolCalls : List (ToolCall α)
  queue : List (QueuedReq α)
  pendingDecisions : List (String × PendingDecision)
  responses : List (String × Decision)
  armedTimers : List Timer
  nextTimerId : Nat
  nextCallerId : Nat
  agent : AgentState α
  instrQueue : List (String × PermMode)
  outcomes : List (Nat × Outcome)
  matchLog : List (Nat × String)
  scanClaims : List (List (ToolCall α) × Nat)
  notifications : List String
deriving DecidableEq

/-- The state right after `startPermissionResolver` set up. -/
def initState : CorrState α where
  toolCalls := []
  queue := []
  pendingDecisions := []
  responses := []
  armedTimers := []
  nextTimerId := 0
  nextCallerId := 0
  agent := { requests := [], completedRequests := [] }
  instrQueue := []
  outcomes := []
  matchLog := []
  scanClaims := []
  notifications := []

/-- Whether a tool name is the plan-exit tool, in either spelling
(the check at the top of `handlePermissionRequest`). -/
def isPlanExitName (name : String) : Bool :=
  name == "exit_plan_mode" || name == "ExitPlanMode"

/-- The membership test `['default','acceptEdits','bypassPermissions']
.includes(mode)` of the plan-exit `wrappedResolve`. -/
def planModeAllowed : PermMode → Bool
  | PermMode.plan => false
  | _ => true

/-- The permission mode the plan-exit restart instruction carries:
`response.mode` when present and allowed, `'default'` otherwise. -/
def normalizeMode : Option PermMode → PermMode
  | some m => if planModeAllowed m then m else PermMode.default
  | none => PermMode.default

/-- `clearTimeout`. -/
def clearTimer (tid : Nat) (l : List Timer) : List Timer :=
  l.filter (fun t => t.tid ≠ tid)

/-- `handlePermissionRequest(id, request)` up to the point where it returns
its promise: store the resolver (the plan-exit wrapper when the tool name has
either plan-exit spelling), arm the 4.5-minute decision timer, send the push
notification, and write the pending entry into the agent state.  The caller
id `cid` labels the returned promise; the ghost `matchLog` log records that
this approval request was matched to tool-call id `tcId`. -/
def handlePermissionRequest [DecidableEq α] (tcId : String) (name : String)
    (args : α) (cid : Nat) (s : CorrState α) : CorrState α :=
  let tid := s.nextTimerId
  { s with
    pendingDecisions :=
      aset tcId { callerId := cid, isPlanExit := isPlanExitName name, timerId := tid }
        s.pendingDecisions
    armedTimers := { tid := tid, job := .decisionTimeout tcId } :: s.armedTimers
    nextTimerId := tid + 1
    notifications := s.notifications ++ [name]
    agent := { s.agent with
      requests := aset tcId { tool := name, arguments := args } s.agent.requests }
    matchLog := s.matchLog ++ [(cid, tcId)] }

/-- The submit handler passed to `startPermissionServerV2`: try the ledger
scan; on a match handle the request with the resolved id, otherwise enqueue
the request with a fresh 30-second timer.  The source guards with `if (!id)`,
so a claimed id that is the empty string (falsy) also takes the queue path,
although the scan has already consumed the record.  The ghost `scanClaims`
log records the ledger before the scan and the index the scan claimed. -/
def stepSubmit [DecidableEq α] (name : String) (args : α) (s : CorrState α) :
    CorrState α :=
  match resolveGo name args s.toolCalls with
  | .found tcId idx calls' =>
    if tcId = "" then
      let cid := s.nextCallerId
      let tid := s.nextTimerId
      { s with
        toolCalls := calls'
        scanClaims := s.scanClaims ++ [(s.toolCalls, idx)]
        queue := s.queue ++ [{ reqName := name, reqArgs := args, callerId := cid, timerId := tid }]
        armedTimers := { tid := tid, job := .queueTimeout cid } :: s.armedTimers
        nextTimerId := tid + 1
        nextCallerId := cid + 1 }
    else
      let cid := s.nextCallerId
      handlePermissionRequest tcId name args cid
        { s with
          toolCalls := calls'
          scanClaims := s.scanClaims ++ [(s.toolCalls, idx)]
          nextCallerId := cid + 1 }
  | _ =>
    let cid := s.nextCallerId
    let tid := s.nextTimerId
    { s with
      queue := s.queue ++ [{ reqName := name, reqArgs := args, callerId := cid, timerId := tid }]
      armedTimers := { tid := tid, job := .queueTimeout cid } :: s.armedTimers
      nextTimerId := tid + 1
      nextCallerId := cid + 1 }

/-- The reverse scan of `pendingPermissionRequests` in the tool-use branch of
`onMessage` (`for (let i = ...length - 1; i >= 0; i--) ... break`): the first
structural match found scanning from the most recently queued entry, returned
with its position. -/
def findLastQueueMatch [DecidableEq α] (name : String) (args : α) :
    List (QueuedReq α) → Option (Nat × QueuedReq α)
  | [] => none
  | q :: rest =>
    match findLastQueueMatch name args rest with
    | some (j, q') => some (j + 1, q')
    | none =>
      if q.reqName = name ∧ q.reqArgs = args then some (0, q) else none

/-- Remove the list entry at a position (embedding of `splice(idx, 1)`). -/
def removeAt (j : Nat) (l : List β) : List β := l.eraseIdx j

/-- The tool-use branch of `onMessage`: append a fresh unconsumed ledger
entry, then resolve at most one structurally matching queued request with the
new id — cancel its 30-second timer, remove it from the queue and handle it.
Note that the fresh ledger entry is not marked consumed on this path. -/
def processToolUse [DecidableEq α] (tcId : String) (name : String) (input : α)
    (s : CorrState α) : CorrState α :=
  let s1 := { s with
    toolCalls := s.toolCalls ++ [{ id := tcId, name := name, input := input, used := false }] }
  match findLastQueueMatch name input s1.queue with
  | some (j, q) =>
    handlePermissionRequest tcId q.reqName q.reqArgs q.callerId
      { s1 with
        armedTimers := clearTimer q.timerId s1.armedTimers
        queue := removeAt j s1.queue }
  | none => s1

/-- A content block of an SDK message, as far as `onMessage` inspects it. -/
inductive Block (α : Type) where
  | toolUse (id : String) (name : String) (input : α)
  | toolResult (toolUseId : String)
  | other
deriving DecidableEq

/-- One block of an assistant message (`onMessage` acts on tool-use blocks). -/
def processBlockA [DecidableEq α] (s : CorrState α) (b : Block α) : CorrState α :=
  match b with
  | .toolUse tcId name input => processToolUse tcId name input s
  | _ => s

/-- One block of a user message (`onMessage` acts on tool-result blocks). -/
def processBlockU [DecidableEq α] (s : CorrState α) (b : Block α) : CorrState α :=
  match b with
  | .toolResult tuid => { s with toolCalls := markConsumedByResult tuid s.toolCalls }
  | _ => s

/-- The `completedRequests` update run by the `'permission'` handler after it
resolved a pending decision.  `isExitPlanModeSuccess` inspects the inbound
decision message itself (not the payload handed to the resolver), and only
the snake-case plan-exit spelling. -/
def completeOnDecision [DecidableEq α] (msg : Decision) (a : AgentState α) :
    AgentState α :=
  match alookup msg.id a.requests with
  | none => a
  | some req =>
    if req.tool = "exit_plan_mode" ∧ msg.approved = false ∧
        msg.reason = some PLAN_FAKE_REJECT then
      { requests := aerase msg.id a.requests
        completedRequests :=
          aset msg.id
            { tool := req.tool, arguments := req.arguments,
              status := .approved, reason := some "Plan approved" }
            a.completedRequests }
    else
      { requests := aerase msg.id a.requests
        completedRequests :=
          aset msg.id
            { tool := req.tool, arguments := req.arguments,
              status := if msg.approved then .approved else .denied,
              reason := msg.reason }
            a.completedRequests }

/-- The `'permission'` handler: look up the stored resolver by id; when none
exists the message is only logged and dropped.  Otherwise record the response,
run the resolver (the plan-exit wrapper injects the restart instruction at the
front of the session queue and resolves with the fake rejection; the plain
resolver passes the decision through), delete the resolver, clear the decision
timer (the promise continuation does), and move the agent-state entry to
`completedRequests`. -/
def stepDecision [DecidableEq α] (msg : Decision) (s : CorrState α) : CorrState α :=
  match alookup msg.id s.pendingDecisions with
  | none => s
  | some e =>
    let s1 := { s with
      responses := aset msg.id msg s.responses
      pendingDecisions := aerase msg.id s.pendingDecisions }
    let s2 :=
      if e.isPlanExit && msg.approved then
        { s1 with
          instrQueue := (PLAN_FAKE_RESTART, normalizeMode msg.mode) :: s1.instrQueue
          outcomes := s1.outcomes ++
            [(e.callerId, Outcome.resolved false (some PLAN_FAKE_REJECT) none)] }
      else
        { s1 with
          outcomes := s1.outcomes ++
            [(e.callerId, Outcome.resolved msg.approved msg.reason msg.mode)] }
    let s3 := { s2 with armedTimers := clearTimer e.timerId s2.armedTimers }
    { s3 with agent := completeOnDecision msg s3.agent }

/-- The `findIndex` scan of the 30-second timeout callback: the first queue
entry belonging to the given caller (object identity in the source). -/
def findIdxByCaller (cid : Nat) : List (QueuedReq α) → Option (Nat × QueuedReq α)
  | [] => none
  | q :: rest =>
    if q.callerId = cid then some (0, q)
    else (findIdxByCaller cid rest).map (fun p => (p.1 + 1, p.2))

/-- The 30-second timeout callback body: if the queued request is still in the
queue, splice it out and reject its promise with the
tool-call-never-arrived error. -/
def runQueueTimeout [DecidableEq α] (cid : Nat) (s : CorrState α) : CorrState α :=
  match findIdxByCaller cid s.queue with
  | some (j, q) =>
    { s with
      queue := removeAt j s.queue
      outcomes := s.outcomes ++ [(cid, Outcome.toolCallNeverArrived q.reqName)] }
  | none => s

/-- The pending-entry cancellation of the 4.5-minute timeout callback: move
the agent-state entry, when still pending, to `completedRequests` as
`canceled` with reason `Timeout`. -/
def cancelOnTimeout [DecidableEq α] (tcId : String) (a : AgentState α) :
    AgentState α :=
  match alookup tcId a.requests with
  | none => a
  | some req =>
    { requests := aerase tcId a.requests
      completedRequests :=
        aset tcId
          { tool := req.tool, arguments := req.arguments,
            status := .canceled, reason := some "Timeout" }
          a.completedRequests }

/-- The 4.5-minute decision timeout callback body: delete the stored resolver
unconditionally, then run the guarded agent-state cancellation. -/
def runDecisionTimeout [DecidableEq α] (tcId : String) (s : CorrState α) :
    CorrState α :=
  let s1 := { s with pendingDecisions := aerase tcId s.pendingDecisions }
  { s1 with agent := cancelOnTimeout tcId s1.agent }

/-- A timer firing: armed timers run their callback exactly once (firing
disarms); a cleared or already fired timer does nothing. -/
def fireTimer [DecidableEq α] (tid : Nat) (s : CorrState α) : CorrState α :=
  match s.armedTimers.find? (fun t => t.tid == tid) with
  | none => s
  | some t =>
    let s1 := { s with armedTimers := clearTimer tid s.armedTimers }
    match t.job with
    | .queueTimeout cid => runQueueTimeout cid s1
    | .decisionTimeout tcId => runDecisionTimeout tcId s1

/-- `reset()`: clear the ledger, the resolver map and the response map, cancel
every queued 30-second timer and drop the queue, and move every pending
agent-state request to `completedRequests` as `canceled` with reason
`Session switched to local mode`.  The 4.5-minute decision timers are not
touched. -/
def stepReset [DecidableEq α] (s : CorrState α) : CorrState α :=
  { s with
    toolCalls := []
    pendingDecisions := []
    responses := []
    queue := []
    armedTimers := s.queue.foldl (fun acc q => clearTimer q.timerId acc) s.armedTimers
    agent :=
      { requests := []
        completedRequests :=
          s.agent.requests.foldl
            (fun acc p =>
              aset p.1
                { tool := p.2.tool, arguments := p.2.arguments,
                  status := .canceled, reason := some "Session switched to local mode" }
                acc)
            s.agent.completedRequests } }

/-- The events the correlator reacts to. -/
inductive Ev (α : Type) where
  | submit (name : String) (args : α)
  | assistant (blocks : List (Block α))
  | user (blocks : List (Block α))
  | decision (msg : Decision)
  | fire (tid : Nat)
  | reset
deriving DecidableEq

/-- One event step. -/
def stepEv [DecidableEq α] (s : CorrState α) (e : Ev α) : CorrState α :=
  match e with
  | .submit name args => stepSubmit name args s
  | .assistant bs => bs.foldl processBlockA s
  | .user bs => bs.foldl processBlockU s
  | .decision msg => stepDecision msg s
  | .fire tid => fireTimer tid s
  | .reset => stepReset s

/-- Run a list of events from a state. -/
def runFrom [DecidableEq α] (s : CorrState α) (es : List (Ev α)) : CorrState α :=
  es.foldl stepEv s

/-- Run a list of events from the initial state. -/
def runEvents [DecidableEq α] (es : List (Ev α)) : CorrState α :=
  runFrom initState es

/-- Consumed ledger entries stay consumed, position by position. -/
def UsedMono (l l' : List (ToolCall α)) : Prop :=
  ∀ (j : Nat) (c : ToolCall α), l[j]? = some c → c.used = true →
    ∃ c' : ToolCall α, l'[j]? = some c' ∧ c'.used = true

/-- The invariant behind C1: every ledger position ever claimed by the scan
was unconsumed in the ledger snapshot at the moment of the claim, claimed
positions are pairwise distinct, and every claimed position is consumed in
the current ledger. -/
def ScanClaimsOK (claims : List (List (ToolCall α) × Nat))
    (calls : List (ToolCall α)) : Prop :=
  (∀ p ∈ claims, ∃ c : ToolCall α, p.1[p.2]? = some c ∧ c.used = false) ∧
  (claims.map Prod.snd).Nodup ∧
  (∀ p ∈ claims, ∃ c : ToolCall α, calls[p.2]? = some c ∧ c.used = true)

/-- The per-state form of the C1 invariant. -/
def ClaimInv (s : CorrState α) : Prop := ScanClaimsOK s.scanClaims s.toolCalls

def sC5 : CorrState String :=
  runEvents [Ev.assistant [Block.toolUse "tc_1" "Bash" "ls"], Ev.submit "Bash" "ls"]

def sC9 : CorrState String :=
  runEvents [Ev.assistant [Block.toolUse "tc_1" "Bash" "ls"],
    Ev.submit "Bash" "ls", Ev.reset]

def sC6 : CorrState String :=
  runEvents [Ev.assistant [Block.toolUse "tc_1" "ExitPlanMode" "plan-args"],
    Ev.submit "ExitPlanMode" "plan-args"]

def msgC6 : Decision :=
  { id := "tc_1", approved := true, reason := none, mode := some PermMode.acceptEdits }

def traceC7 : List (Ev String) :=
  [Ev.assistant [Block.toolUse "tc_1" "exit_plan_mode" "plan-args"],
   Ev.submit "exit_plan_mode" "plan-args",
   Ev.decision { id := "tc_1", approved := true, reason := none, mode := some PermMode.acceptEdits }]

def sC7 : CorrState String :=
  runEvents [Ev.assistant [Block.toolUse "tc_1" "exit_plan_mode" "plan-args"],
    Ev.submit "exit_plan_mode" "plan-args"]

def msgC7 : Decision :=
  { id := "tc_1", approved := true, reason := none, mode := some PermMode.acceptEdits }

def traceC8 : List (Ev String) :=
  [Ev.assistant [Block.toolUse "tc_1" "Bash" "ls"], Ev.submit "Bash" "ls", Ev.reset]

def sC8 : CorrState String :=
  runEvents [Ev.assistant [Block.toolUse "tc_8" "Bash" "pwd"], Ev.submit "Bash" "pwd"]

theorem resolveGo_notFound_char [DecidableEq α] {name : String} {args : α} :
    ∀ {calls : List (ToolCall α)}, resolveGo name args calls = ScanResult.notFound →
      ∀ (k : Nat) (c : ToolCall α), calls[k]? = some c →
        ¬(c.name = name ∧ c.input = args) := by
  intro calls
  induction calls with
  | nil => intro _ k c hk hc; simp at hk
  | cons c0 rest ih =>
    intro h k c hk hc
    simp only [resolveGo] at h
    cases hr : resolveGo name args rest <;> rw [hr] at h
    case found => simp at h
    case blocked => simp at h
    case notFound =>
      by_cases hcc : c0.name = name ∧ c0.input = args
      · rw [if_pos hcc] at h
        cases hcu : c0.used <;> simp [hcu] at h
      · cases k with
        | zero =>
          rw [List.getElem?_cons_zero] at hk
          injection hk with h2
          subst h2
          exact hcc hc
        | succ k' =>
          rw [List.getElem?_cons_succ] at hk
          exact ih hr k' c hk hc

theorem resolveGo_found_char [DecidableEq α] {name : String} {args : α} :
    ∀ {calls : List (ToolCall α)} {i : String} {j : Nat} {calls' : List (ToolCall α)},
      resolveGo name args calls = ScanResult.found i j calls' →
      ∃ c : ToolCall α, calls[j]? = some c ∧ c.name = name ∧ c.input = args ∧
        c.used = false ∧ c.id = i ∧ calls' = calls.set j { c with used := true } ∧
        ∀ (k : Nat) (c' : ToolCall α), j < k → calls[k]? = some c' →
          ¬(c'.name = name ∧ c'.input = args) := by
  intro calls
  induction calls with
  | nil => intro i j calls' h; simp [resolveGo] at h
  | cons c0 rest ih =>
    intro i j calls' h
    simp only [resolveGo] at h
    cases hr : resolveGo name args rest <;> rw [hr] at h
    case found i' j' rest' =>
      simp at h
      obtain ⟨hi, hj, hcalls⟩ := h
      subst hi
      obtain ⟨c, hc1, hc2, hc3, hc4, hc5, hc6, hc7⟩ := ih hr
      refine ⟨c, ?_, hc2, hc3, hc4, hc5, ?_, ?_⟩
      · rw [← hj, List.getElem?_cons_succ]; exact hc1
      · rw [← hcalls, ← hj, hc6]; rfl
      · intro k c' hk hgk hcc
        rw [← hj] at hk
        cases k with
        | zero => omega
        | succ k'' =>
          rw [List.getElem?_cons_succ] at hgk
          exact hc7 k'' c' (by omega) hgk hcc
    case blocked => simp at h
    case notFound =>
      by_cases hcc : c0.name = name ∧ c0.input = args
      · rw [if_pos hcc] at h
        cases hcu : c0.used <;> simp [hcu] at h
        obtain ⟨hi, hj, hcalls⟩ := h
        subst hi; subst hj
        refine ⟨c0, by simp, hcc.1, hcc.2, hcu, rfl, ?_, ?_⟩
        · rw [← hcalls]; rfl
        · intro k c' hk hgk hcc'
          cases k with
          | zero => omega
          | succ k'' =>
            rw [List.getElem?_cons_succ] at hgk
            exact resolveGo_notFound_char hr k'' c' hgk hcc'
      · rw [if_neg hcc] at h
        simp at h

theorem resolveGo_blocked_char [DecidableEq α] {name : String} {args : α} :
    ∀ {calls : List (ToolCall α)}, resolveGo name args calls = ScanResult.blocked →
      ∃ (j : Nat) (c : ToolCall α), calls[j]? = some c ∧ c.name = name ∧
        c.input = args ∧ c.used = true ∧
        ∀ (k : Nat) (c' : ToolCall α), j < k → calls[k]? = some c' →
          ¬(c'.name = name ∧ c'.input = args) := by
  intro calls
  induction calls with
  | nil => intro h; simp [resolveGo] at h
  | cons c0 rest ih =>
    intro h
    simp only [resolveGo] at h
    cases hr : resolveGo name args rest <;> rw [hr] at h
    case found => simp at h
    case blocked =>
      obtain ⟨j, c, hc1, hc2, hc3, hc4, hc5⟩ := ih hr
      refine ⟨j + 1, c, by rw [List.getElem?_cons_succ]; exact hc1, hc2, hc3, hc4, ?_⟩
      intro k c' hk hgk hcc
      cases k with
      | zero => omega
      | succ k'' =>
        rw [List.getElem?_cons_succ] at hgk
        exact hc5 k'' c' (by omega) hgk hcc
    case notFound =>
      by_cases hcc : c0.name = name ∧ c0.input = args
      · rw [if_pos hcc] at h
        cases hcu : c0.used <;> simp [hcu] at h
        refine ⟨0, c0, by simp, hcc.1, hcc.2, hcu, ?_⟩
        intro k c' hk hgk hcc'
        cases k with
        | zero => omega
        | succ k'' =>
          rw [List.getElem?_cons_succ] at hgk
          exact resolveGo_notFound_char hr k'' c' hgk hcc'
      · rw [if_neg hcc] at h
        simp at h

/-- C2: the claim as originally stated is false: with ledger
`[tc_a unconsumed, tc_b consumed]`, both entries structurally matching, the
scan stops at the consumed most recent entry `tc_b` and returns none, although
the unconsumed structural match `tc_a` exists, so the function does not return
the most recently added unconsumed match and it returns none even though an
unconsumed structurally equal entry exists in the ledger. -/
theorem C2_counterexample :
    (resolveToolCallId "Bash" "ls"
      [{ id := "tc_a", name := "Bash", input := "ls", used := false },
       { id := "tc_b", name := "Bash", input := "ls", used := true }]).1 = none ∧
    ([({ id := "tc_a", name := "Bash", input := "ls", used := false } : ToolCall String),
      { id := "tc_b", name := "Bash", input := "ls", used := true }])[0]? =
      some { id := "tc_a", name := "Bash", input := "ls", used := false } ∧
    (resolveToolCallId "Bash" "ls"
      [{ id := "tc_a", name := "Bash", input := "ls", used := false },
       { id := "tc_b", name := "Bash", input := "ls", used := true }]).1 ≠ some "tc_a" := by
  decide

/-- C2 (amended): `findUnconsumedMatch` (`resolveToolCallId`) scans the ledger
most-recently-added first and stops at the first structural match it meets.
When the returned id is some, the claimed entry is the most recent structural
match, it was unconsumed, and it is marked consumed atomically with the scan;
when none is returned, every unconsumed structural match in the ledger (if
any) is shadowed by a strictly more recent consumed structural match. -/
theorem C2_most_recent_match_amended [DecidableEq α] (name : String) (args : α)
    (calls : List (ToolCall α)) :
    (∀ (tcId : String) (newCalls : List (ToolCall α)),
      resolveToolCallId name args calls = (some tcId, newCalls) →
      ∃ (j : Nat) (c : ToolCall α), calls[j]? = some c ∧ c.name = name ∧
        c.input = args ∧ c.used = false ∧ c.id = tcId ∧
        newCalls = calls.set j { c with used := true } ∧
        ∀ (k : Nat) (c' : ToolCall α), j < k → calls[k]? = some c' →
          ¬(c'.name = name ∧ c'.input = args)) ∧
    ((resolveToolCallId name args calls).1 = none →
      ∀ (j : Nat) (c : ToolCall α), calls[j]? = some c → c.name = name →
        c.input = args → c.used = false →
        ∃ (k : Nat) (c' : ToolCall α), j < k ∧ calls[k]? = some c' ∧
          c'.name = name ∧ c'.input = args ∧ c'.used = true) := by
  constructor
  · intro tcId newCalls h
    simp only [resolveToolCallId] at h
    cases hr : resolveGo name args calls <;> rw [hr] at h <;> simp at h
    case found i j calls' =>
      obtain ⟨hi, hcalls⟩ := h
      obtain ⟨c, hc1, hc2, hc3, hc4, hc5, hc6, hc7⟩ := resolveGo_found_char hr
      exact ⟨j, c, hc1, hc2, hc3, hc4, hi ▸ hc5, hcalls ▸ hc6, hc7⟩
  · intro hnone j c hj hn hi hu
    cases hr : resolveGo name args calls
    case found i j' calls' => simp [resolveToolCallId, hr] at hnone
    case blocked =>
      obtain ⟨j0, c0, hb1, hb2, hb3, hb4, hb5⟩ := resolveGo_blocked_char hr
      rcases lt_trichotomy j j0 with hlt | heq | hgt
      · exact ⟨j0, c0, hlt, hb1, hb2, hb3, hb4⟩
      · subst heq
        rw [hj] at hb1
        injection hb1 with h2
        rw [← h2] at hb4
        rw [hu] at hb4
        exact absurd hb4 (by simp)
      · exact absurd ⟨hn, hi⟩ (hb5 j c hgt hj)
    case notFound =>
      exact absurd ⟨hn, hi⟩ (resolveGo_notFound_char hr j c hj)

/-- C2 (amended), witness: with two unconsumed structurally identical records
created in order `tc_a` then `tc_b`, the scan returns the more recent id
`tc_b` and marks that entry consumed. -/
theorem C2_most_recent_match_witness :
    ∃ (j : Nat) (c : ToolCall String),
      ([({ id := "tc_a", name := "Bash", input := "ls", used := false } : ToolCall String),
        { id := "tc_b", name := "Bash", input := "ls", used := false }])[j]? = some c ∧
      c.name = "Bash" ∧ c.input = "ls" ∧ c.used = false ∧ c.id = "tc_b" ∧
      ([({ id := "tc_a", name := "Bash", input := "ls", used := false } : ToolCall String),
        { id := "tc_b", name := "Bash", input := "ls", used := true }]) =
        ([({ id := "tc_a", name := "Bash", input := "ls", used := false } : ToolCall String),
          { id := "tc_b", name := "Bash", input := "ls", used := false }]).set j
          { c with used := true } ∧
      ∀ (k : Nat) (c' : ToolCall String), j < k →
        ([({ id := "tc_a", name := "Bash", input := "ls", used := false } : ToolCall String),
          { id := "tc_b", name := "Bash", input := "ls", used := false }])[k]? = some c' →
        ¬(c'.name = "Bash" ∧ c'.input = "ls") :=
  (C2_most_recent_match_amended "Bash" "ls"
    [{ id := "tc_a", name := "Bash", input := "ls", used := false },
     { id := "tc_b", name := "Bash", input := "ls", used := false }]).1
    "tc_b"
    [{ id := "tc_a", name := "Bash", input := "ls", used := false },
     { id := "tc_b", name := "Bash", input := "ls", used := true }]
    (by decide)

theorem getElem?_some_lt {β : Type} {l : List β} {n : Nat} {a : β}
    (h : l[n]? = some a) : n < l.length := by
  by_contra hc
  rw [List.getElem?_eq_none (by omega)] at h
  exact Option.noConfusion h

theorem usedMono_refl (l : List (ToolCall α)) : UsedMono l l :=
  fun _ c h hu => ⟨c, h, hu⟩

theorem usedMono_append (l l₂ : List (ToolCall α)) : UsedMono l (l ++ l₂) :=
  fun j c h hu =>
    ⟨c, by rw [List.getElem?_append_left (getElem?_some_lt h)]; exact h, hu⟩

theorem usedMono_set_true (l : List (ToolCall α)) (i : Nat) (x : ToolCall α)
    (hx : x.used = true) : UsedMono l (l.set i x) := by
  intro j c h hu
  by_cases hij : i = j
  · subst hij
    exact ⟨x, List.getElem?_set_eq_of_lt x (getElem?_some_lt h), hx⟩
  · exact ⟨c, by rw [List.getElem?_set_ne hij]; exact h, hu⟩

theorem mark_getElem (tid : String) :
    ∀ (l : List (ToolCall α)) (j : Nat),
      (markConsumedByResult tid l)[j]? = l[j]? ∨
      ∃ c : ToolCall α, l[j]? = some c ∧
        (markConsumedByResult tid l)[j]? = some { c with used := true } := by
  intro l
  induction l with
  | nil => intro j; left; rfl
  | cons c0 rest ih =>
    intro j
    simp only [markConsumedByResult]
    by_cases hid : c0.id = tid
    · rw [if_pos hid]
      cases hcu : c0.used
      · rw [if_neg (by simp [hcu])]
        cases j with
        | zero => right; exact ⟨c0, by simp, by simp⟩
        | succ j' => left; simp
      · rw [if_pos (by simp [hcu])]
        left; rfl
    · rw [if_neg hid]
      cases j with
      | zero => left; simp
      | succ j' =>
        rw [List.getElem?_cons_succ, List.getElem?_cons_succ]
        exact ih j'

theorem usedMono_mark (tid : String) (l : List (ToolCall α)) :
    UsedMono l (markConsumedByResult tid l) := by
  intro j c h hu
  rcases mark_getElem tid l j with heq | ⟨c', hc', hm⟩
  · exact ⟨c, heq.trans h, hu⟩
  · rw [h] at hc'
    injection hc' with h2
    subst h2
    exact ⟨{ c with used := true }, hm, rfl⟩

theorem scanClaimsOK_mono {claims : List (List (ToolCall α) × Nat)}
    {calls calls' : List (ToolCall α)} (hm : UsedMono calls calls')
    (h : ScanClaimsOK claims calls) : ScanClaimsOK claims calls' := by
  obtain ⟨h1, h2, h3⟩ := h
  refine ⟨h1, h2, fun p hp => ?_⟩
  obtain ⟨c, hc, hu⟩ := h3 p hp
  exact hm p.2 c hc hu

theorem scanClaimsOK_extend {claims : List (List (ToolCall α) × Nat)}
    {calls : List (ToolCall α)} {idx : Nat} {c : ToolCall α}
    (h : ScanClaimsOK claims calls) (hc : calls[idx]? = some c)
    (hu : c.used = false) :
    ScanClaimsOK (claims ++ [(calls, idx)])
      (calls.set idx { c with used := true }) := by
  obtain ⟨h1, h2, h3⟩ := h
  have hlt : idx < calls.length := getElem?_some_lt hc
  have hnotin : idx ∉ claims.map Prod.snd := by
    intro hmem
    obtain ⟨p, hp, hpidx⟩ := List.mem_map.mp hmem
    obtain ⟨c', hcc, hcu⟩ := h3 p hp
    rw [hpidx, hc] at hcc
    injection hcc with h2'
    rw [← h2'] at hcu
    rw [hcu] at hu
    exact Bool.noConfusion hu
  refine ⟨?_, ?_, ?_⟩
  · intro p hp
    rcases List.mem_append.mp hp with hl | hr
    · exact h1 p hl
    · rw [List.mem_singleton.mp hr]
      exact ⟨c, hc, hu⟩
  · rw [List.map_append]
    simp only [List.map_cons, List.map_nil]
    rw [List.nodup_append]
    refine ⟨h2, List.nodup_singleton idx, ?_⟩
    intro a ha hb
    rw [List.mem_singleton] at hb
    subst hb
    exact hnotin ha
  · intro p hp
    rcases List.mem_append.mp hp with hl | hr
    · obtain ⟨c', hcc, hcu⟩ := h3 p hl
      have hne : idx ≠ p.2 := by
        intro he
        exact hnotin (he ▸ List.mem_map_of_mem Prod.snd hl)
      exact ⟨c', by rw [List.getElem?_set_ne hne]; exact hcc, hcu⟩
    · rw [List.mem_singleton.mp hr]
      exact ⟨{ c with used := true },
        List.getElem?_set_eq_of_lt { c with used := true } hlt, rfl⟩

theorem stepDecision_fields [DecidableEq α] (msg : Decision) (s : CorrState α) :
    (stepDecision msg s).toolCalls = s.toolCalls ∧
    (stepDecision msg s).scanClaims = s.scanClaims := by
  cases h : alookup msg.id s.pendingDecisions with
  | none => simp [stepDecision, h]
  | some e =>
    simp only [stepDecision, h]
    constructor <;> split <;> rfl

theorem fireTimer_fields [DecidableEq α] (tid : Nat) (s : CorrState α) :
    (fireTimer tid s).toolCalls = s.toolCalls ∧
    (fireTimer tid s).scanClaims = s.scanClaims := by
  cases h : s.armedTimers.find? (fun t => t.tid == tid) with
  | none => simp [fireTimer, h]
  | some t =>
    cases hj : t.job with
    | queueTimeout cid =>
      cases hq : findIdxByCaller cid s.queue with
      | none => simp [fireTimer, h, hj, runQueueTimeout, hq]
      | some p =>
        cases p with
        | mk j q => simp [fireTimer, h, hj, runQueueTimeout, hq]
    | decisionTimeout rid => simp [fireTimer, h, hj, runDecisionTimeout]

theorem claimInv_stepSubmit [DecidableEq α] (name : String) (args : α)
    (s : CorrState α) (h : ClaimInv s) : ClaimInv (stepSubmit name args s) := by
  simp only [stepSubmit]
  split
  · rename_i tcId idx calls' heq
    obtain ⟨c, hc1, _, _, hc4, _, hc6, _⟩ := resolveGo_found_char heq
    have hext := scanClaimsOK_extend h hc1 hc4
    rw [← hc6] at hext
    split
    · exact hext
    · exact hext
  · exact h

theorem claimInv_processToolUse [DecidableEq α] (tcId name : String) (input : α)
    (s : CorrState α) (h : ClaimInv s) : ClaimInv (processToolUse tcId name input s) := by
  have h' : ScanClaimsOK s.scanClaims
      (s.toolCalls ++ [{ id := tcId, name := name, input := input, used := false }]) :=
    scanClaimsOK_mono (usedMono_append s.toolCalls _) h
  simp only [processToolUse]
  cases hq : findLastQueueMatch name input s.queue with
  | none => exact h'
  | some p =>
    cases p with
    | mk j q => exact h'

theorem claimInv_processBlockA [DecidableEq α] (s : CorrState α) (b : Block α)
    (h : ClaimInv s) : ClaimInv (processBlockA s b) := by
  cases b with
  | toolUse tcId name input => exact claimInv_processToolUse tcId name input s h
  | toolResult tuid => exact h
  | other => exact h

theorem claimInv_processBlockU [DecidableEq α] (s : CorrState α) (b : Block α)
    (h : ClaimInv s) : ClaimInv (processBlockU s b) := by
  cases b with
  | toolUse tcId name input => exact h
  | toolResult tuid => exact scanClaimsOK_mono (usedMono_mark tuid s.toolCalls) h
  | other => exact h

theorem claimInv_foldA [DecidableEq α] :
    ∀ (bs : List (Block α)) (s : CorrState α), ClaimInv s →
      ClaimInv (bs.foldl processBlockA s) := by
  intro bs
  induction bs with
  | nil => intro s h; exact h
  | cons b bs' ih => intro s h; exact ih (processBlockA s b) (claimInv_processBlockA s b h)

theorem claimInv_foldU [DecidableEq α] :
    ∀ (bs : List (Block α)) (s : CorrState α), ClaimInv s →
      ClaimInv (bs.foldl processBlockU s) := by
  intro bs
  induction bs with
  | nil => intro s h; exact h
  | cons b bs' ih => intro s h; exact ih (processBlockU s b) (claimInv_processBlockU s b h)

theorem claimInv_stepEv [DecidableEq α] (s : CorrState α) (e : Ev α)
    (hne : e ≠ Ev.reset) (h : ClaimInv s) : ClaimInv (stepEv s e) := by
  cases e with
  | submit name args => exact claimInv_stepSubmit name args s h
  | assistant bs => exact claimInv_foldA bs s h
  | user bs => exact claimInv_foldU bs s h
  | decision msg =>
    obtain ⟨ht, hc⟩ := stepDecision_fields msg s
    show ClaimInv (stepDecision msg s)
    unfold ClaimInv
    rw [ht, hc]
    exact h
  | fire tid =>
    obtain ⟨ht, hc⟩ := fireTimer_fields tid s
    show ClaimInv (fireTimer tid s)
    unfold ClaimInv
    rw [ht, hc]
    exact h
  | reset => exact absurd rfl hne

theorem claimInv_init [DecidableEq α] : ClaimInv (initState : CorrState α) := by
  refine ⟨?_, ?_, ?_⟩ <;> simp [initState]

theorem claimInv_runFrom [DecidableEq α] :
    ∀ (es : List (Ev α)) (s : CorrState α), (∀ e ∈ es, e ≠ Ev.reset) →
      ClaimInv s → ClaimInv (runFrom s es) := by
  intro es
  induction es with
  | nil => intro s _ h; exact h
  | cons e es' ih =>
    intro s hne h
    exact ih (stepEv s e) (fun e' he' => hne e' (List.mem_cons_of_mem e he'))
      (claimInv_stepEv s e (hne e (List.mem_cons_self e es')) h)

/-- C1: counterexample to the claim as stated.  Interleaving: a submit for
`(Bash, ls)` arrives first and is queued; the record call `tc_1` then resolves
the queued request with id `tc_1` but does not mark the record consumed
(the queued-request path bypasses the consuming scan); a second identical
submit then claims the very same record through the scan.  The single
ToolCallRecord `tc_1` is thereby matched to two distinct approval requests
(caller 0 and caller 1), refuting that no record is ever matched twice. -/
theorem C1_counterexample :
    (runEvents [Ev.submit "Bash" "ls",
      Ev.assistant [Block.toolUse "tc_1" "Bash" "ls"],
      Ev.submit "Bash" "ls"]).matchLog = [(0, "tc_1"), (1, "tc_1")] ∧
    ¬ ((runEvents [Ev.submit "Bash" "ls",
      Ev.assistant [Block.toolUse "tc_1" "Bash" "ls"],
      Ev.submit "Bash" "ls"]).matchLog.map Prod.snd).Nodup := by
  decide

/-- C1 (amended): over every interleaving of record calls, submit calls, tool
results, decisions and timer firings that contains no reset, every match made
by the consuming ledger scan (`resolveToolCallId`) claims a ledger position
whose record was unconsumed in the ledger snapshot at the moment of the scan,
and no ledger position is ever claimed twice by the scan.  The original claim
fails only for the queued-request path, which matches a freshly recorded tool
call without consuming it (see the counterexample). -/
theorem C1_scan_claims_amended [DecidableEq α] (es : List (Ev α))
    (hnr : ∀ e ∈ es, e ≠ Ev.reset) :
    (∀ p ∈ (runEvents es).scanClaims,
      ∃ c : ToolCall α, p.1[p.2]? = some c ∧ c.used = false) ∧
    ((runEvents es).scanClaims.map Prod.snd).Nodup := by
  have h := claimInv_runFrom es initState hnr claimInv_init
  exact ⟨h.1, h.2.1⟩

/-- C1 (amended), witness: a record followed by two identical submits — the
first submit claims the record through the scan, the second finds it consumed
and is queued; the scan claim list has the one claim, distinct and unconsumed
at its moment. -/
theorem C1_scan_claims_witness :
    (∀ p ∈ (runEvents [Ev.assistant [Block.toolUse "tc_1" "Bash" "ls"],
        Ev.submit "Bash" "ls", Ev.submit "Bash" "ls"]).scanClaims,
      ∃ c : ToolCall String, p.1[p.2]? = some c ∧ c.used = false) ∧
    ((runEvents [Ev.assistant [Block.toolUse "tc_1" "Bash" "ls"],
        Ev.submit "Bash" "ls", Ev.submit "Bash" "ls"]).scanClaims.map Prod.snd).Nodup :=
  C1_scan_claims_amended
    [Ev.assistant [Block.toolUse "tc_1" "Bash" "ls"],
     Ev.submit "Bash" "ls", Ev.submit "Bash" "ls"]
    (by decide)

theorem alookup_aset_self [DecidableEq κ] (k : κ) (v : β) (l : List (κ × β)) :
    alookup k (aset k v l) = some v := by
  simp [aset, alookup]

theorem alookup_aerase_ne [DecidableEq κ] {k k' : κ} (h : k ≠ k') :
    ∀ l : List (κ × β), alookup k (aerase k' l) = alookup k l := by
  intro l
  induction l with
  | nil => rfl
  | cons p rest ih =>
    cases p with
    | mk k0 v0 =>
      by_cases hp : k0 = k'
      · have hk0 : ¬(k0 = k) := fun he => h (he ▸ hp)
        simp only [aerase, List.filter_cons] at ih ⊢
        rw [if_neg (by simp [hp])]
        rw [show alookup k ((k0, v0) :: rest) = alookup k rest from by
          simp only [alookup, if_neg hk0]]
        exact ih
      · simp only [aerase, List.filter_cons] at ih ⊢
        rw [if_pos (by simp [hp])]
        by_cases hk0 : k0 = k
        · simp [alookup, hk0]
        · simp only [alookup, if_neg hk0]
          exact ih

theorem alookup_aerase_self [DecidableEq κ] (k : κ) (l : List (κ × β)) :
    alookup k (aerase k l) = none := by
  induction l with
  | nil => rfl
  | cons p rest ih =>
    cases p with
    | mk k0 v0 =>
      by_cases hp : k0 = k
      · simp only [aerase, List.filter_cons] at ih ⊢
        rw [if_neg (by simp [hp])]
        exact ih
      · simp only [aerase, List.filter_cons] at ih ⊢
        rw [if_pos (by simp [hp])]
        simp only [alookup, if_neg hp]
        exact ih

theorem alookup_aset_ne [DecidableEq κ] {k k' : κ} (h : k ≠ k') (v : β)
    (l : List (κ × β)) : alookup k (aset k' v l) = alookup k l := by
  have hne : ¬(k' = k) := fun he => h he.symm
  simp only [aset, alookup, if_neg hne]
  exact alookup_aerase_ne h l

theorem findLastQueueMatch_none_char [DecidableEq α] {name : String} {args : α} :
    ∀ {queue : List (QueuedReq α)}, findLastQueueMatch name args queue = none →
      ∀ (k : Nat) (q : QueuedReq α), queue[k]? = some q →
        ¬(q.reqName = name ∧ q.reqArgs = args) := by
  intro queue
  induction queue with
  | nil => intro _ k q hk; simp at hk
  | cons q0 rest ih =>
    intro h k q hk hq
    simp only [findLastQueueMatch] at h
    cases hr : findLastQueueMatch name args rest <;> rw [hr] at h
    · by_cases hq0 : q0.reqName = name ∧ q0.reqArgs = args
      · rw [if_pos hq0] at h
        exact Option.noConfusion h
      · cases k with
        | zero =>
          rw [List.getElem?_cons_zero] at hk
          injection hk with h2
          subst h2
          exact hq0 hq
        | succ k' =>
          rw [List.getElem?_cons_succ] at hk
          exact ih hr k' q hk hq
    · simp at h

theorem findLastQueueMatch_some_char [DecidableEq α] {name : String} {args : α} :
    ∀ {queue : List (QueuedReq α)} {j : Nat} {q : QueuedReq α},
      findLastQueueMatch name args queue = some (j, q) →
      queue[j]? = some q ∧ q.reqName = name ∧ q.reqArgs = args ∧
        ∀ (k : Nat) (q' : QueuedReq α), j < k → queue[k]? = some q' →
          ¬(q'.reqName = name ∧ q'.reqArgs = args) := by
  intro queue
  induction queue with
  | nil => intro j q h; simp [findLastQueueMatch] at h
  | cons q0 rest ih =>
    intro j q h
    simp only [findLastQueueMatch] at h
    cases hr : findLastQueueMatch name args rest <;> rw [hr] at h
    · by_cases hq0 : q0.reqName = name ∧ q0.reqArgs = args
      · rw [if_pos hq0] at h
        injection h with h2
        injection h2 with hj hq
        subst hq
        subst hj
        refine ⟨by simp, hq0.1, hq0.2, ?_⟩
        intro k qq hk hgk hqq
        cases k with
        | zero => omega
        | succ k'' =>
          rw [List.getElem?_cons_succ] at hgk
          exact findLastQueueMatch_none_char hr k'' qq hgk hqq
      · rw [if_neg hq0] at h
        exact Option.noConfusion h
    · rename_i p
      cases p with
      | mk j' q' =>
        injection h with h2
        injection h2 with hj hq
        subst hq
        obtain ⟨h1, h2', h3, h4⟩ := ih hr
        refine ⟨?_, h2', h3, ?_⟩
        · rw [← hj, List.getElem?_cons_succ]; exact h1
        · intro k qq hk hgk hqq
          rw [← hj] at hk
          cases k with
          | zero => omega
          | succ k'' =>
            rw [List.getElem?_cons_succ] at hgk
            exact h4 k'' qq (by omega) hgk hqq

theorem mem_clearTimer {t : Timer} {tid : Nat} {l : List Timer}
    (h : t ∈ clearTimer tid l) : t ∈ l ∧ t.tid ≠ tid := by
  simp only [clearTimer, List.mem_filter, ne_eq, decide_not, Bool.not_eq_eq_eq_not,
    Bool.not_true, decide_eq_false_iff_not] at h
  exact h

/-- C3: a record call whose tool-use block structurally matches a queued
approval request dequeues the queue entry the reverse scan meets first (the
most recently queued structural match), cancels its 30-second timer, removes
it from the queue, and continues processing the request under the newly
recorded tool-call id: the request becomes a pending decision keyed by that
id, the agent state gains the pending entry, and the match log records the
caller being matched to the new id. -/
theorem C3_queue_match_dequeue [DecidableEq α] (s : CorrState α)
    (tcId name : String) (input : α) (j : Nat) (q : QueuedReq α)
    (hq : findLastQueueMatch name input s.queue = some (j, q))
    (hfresh : q.timerId < s.nextTimerId) :
    s.queue[j]? = some q ∧ q.reqName = name ∧ q.reqArgs = input ∧
    (∀ (k : Nat) (q' : QueuedReq α), j < k → s.queue[k]? = some q' →
      ¬(q'.reqName = name ∧ q'.reqArgs = input)) ∧
    (stepEv s (Ev.assistant [Block.toolUse tcId name input])).queue =
      s.queue.eraseIdx j ∧
    (∀ t ∈ (stepEv s (Ev.assistant [Block.toolUse tcId name input])).armedTimers,
      t.tid ≠ q.timerId) ∧
    alookup tcId
        (stepEv s (Ev.assistant [Block.toolUse tcId name input])).pendingDecisions =
      some { callerId := q.callerId, isPlanExit := isPlanExitName q.reqName,
             timerId := s.nextTimerId } ∧
    alookup tcId
        (stepEv s (Ev.assistant [Block.toolUse tcId name input])).agent.requests =
      some { tool := q.reqName, arguments := q.reqArgs } ∧
    (stepEv s (Ev.assistant [Block.toolUse tcId name input])).matchLog =
      s.matchLog ++ [(q.callerId, tcId)] := by
  obtain ⟨h1, h2, h3, h4⟩ := findLastQueueMatch_some_char hq
  have hstep : stepEv s (Ev.assistant [Block.toolUse tcId name input]) =
      handlePermissionRequest tcId q.reqName q.reqArgs q.callerId
        { s with
          toolCalls := s.toolCalls ++
            [{ id := tcId, name := name, input := input, used := false }]
          armedTimers := clearTimer q.timerId s.armedTimers
          queue := removeAt j s.queue } := by
    show processToolUse tcId name input s = _
    simp only [processToolUse]
    rw [hq]
  refine ⟨h1, h2, h3, h4, ?_, ?_, ?_, ?_, ?_⟩
  · rw [hstep]; rfl
  · rw [hstep]
    intro t ht
    rcases List.mem_cons.mp ht with rfl | ht'
    · show s.nextTimerId ≠ q.timerId
      omega
    · exact (mem_clearTimer ht').2
  · rw [hstep]
    exact alookup_aset_self tcId _ _
  · rw [hstep]
    exact alookup_aset_self tcId _ _
  · rw [hstep]; rfl

/-- C3, witness: the out-of-order example of the spec — a submit of
`(Bash, ls)` is queued; a record call `tc_1` with the same name and
arguments then dequeues it and the request continues under id `tc_1`. -/
theorem C3_queue_match_dequeue_witness :
    (runEvents [Ev.submit "Bash" "ls"]).queue[0]? =
      some { reqName := "Bash", reqArgs := "ls", callerId := 0, timerId := 0 } ∧
    ({ reqName := "Bash", reqArgs := "ls", callerId := 0, timerId := 0 } :
      QueuedReq String).reqName = "Bash" ∧
    ({ reqName := "Bash", reqArgs := "ls", callerId := 0, timerId := 0 } :
      QueuedReq String).reqArgs = "ls" ∧
    (∀ (k : Nat) (q' : QueuedReq String), 0 < k →
      (runEvents [Ev.submit "Bash" "ls"]).queue[k]? = some q' →
      ¬(q'.reqName = "Bash" ∧ q'.reqArgs = "ls")) ∧
    (stepEv (runEvents [Ev.submit "Bash" "ls"])
        (Ev.assistant [Block.toolUse "tc_1" "Bash" "ls"])).queue =
      (runEvents [Ev.submit "Bash" "ls"]).queue.eraseIdx 0 ∧
    (∀ t ∈ (stepEv (runEvents [Ev.submit "Bash" "ls"])
        (Ev.assistant [Block.toolUse "tc_1" "Bash" "ls"])).armedTimers,
      t.tid ≠ ({ reqName := "Bash", reqArgs := "ls", callerId := 0, timerId := 0 } :
        QueuedReq String).timerId) ∧
    alookup "tc_1" (stepEv (runEvents [Ev.submit "Bash" "ls"])
        (Ev.assistant [Block.toolUse "tc_1" "Bash" "ls"])).pendingDecisions =
      some { callerId := 0, isPlanExit := isPlanExitName "Bash",
             timerId := (runEvents [Ev.submit "Bash" "ls"]).nextTimerId } ∧
    alookup "tc_1" (stepEv (runEvents [Ev.submit "Bash" "ls"])
        (Ev.assistant [Block.toolUse "tc_1" "Bash" "ls"])).agent.requests =
      some { tool := "Bash", arguments := "ls" } ∧
    (stepEv (runEvents [Ev.submit "Bash" "ls"])
        (Ev.assistant [Block.toolUse "tc_1" "Bash" "ls"])).matchLog =
      (runEvents [Ev.submit "Bash" "ls"]).matchLog ++ [(0, "tc_1")] :=
  C3_queue_match_dequeue (runEvents [Ev.submit "Bash" "ls"]) "tc_1" "Bash" "ls" 0
    { reqName := "Bash", reqArgs := "ls", callerId := 0, timerId := 0 }
    (by decide) (by decide)

theorem findIdxByCaller_some_char {cid : Nat} :
    ∀ {l : List (QueuedReq α)} {j : Nat} {q : QueuedReq α},
      findIdxByCaller cid l = some (j, q) → l[j]? = some q ∧ q.callerId = cid := by
  intro l
  induction l with
  | nil => intro j q h; simp [findIdxByCaller] at h
  | cons q0 rest ih =>
    intro j q h
    simp only [findIdxByCaller] at h
    by_cases h0 : q0.callerId = cid
    · rw [if_pos h0] at h
      injection h with h2
      injection h2 with hj hq
      subst hq
      subst hj
      exact ⟨by simp, h0⟩
    · rw [if_neg h0] at h
      cases hr : findIdxByCaller cid rest <;> rw [hr] at h
      · exact Option.noConfusion h
      · rename_i p
        cases p with
        | mk j' q' =>
          simp only [Option.map_some'] at h
          injection h with h2
          injection h2 with hj hq
          subst hq
          obtain ⟨h1, h2'⟩ := ih hr
          exact ⟨by rw [← hj, List.getElem?_cons_succ]; exact h1, h2'⟩

theorem mem_of_getElem?_some {β : Type} :
    ∀ {l : List β} {n : Nat} {a : β}, l[n]? = some a → a ∈ l := by
  intro l
  induction l with
  | nil => intro n a h; simp at h
  | cons b rest ih =>
    intro n a h
    cases n with
    | zero =>
      rw [List.getElem?_cons_zero] at h
      injection h with h2
      subst h2
      exact List.mem_cons_self b rest
    | succ n' =>
      rw [List.getElem?_cons_succ] at h
      exact List.mem_cons_of_mem b (ih h)

theorem eraseIdx_no_dup_key {β γ : Type} (f : β → γ) :
    ∀ (l : List β) (j : Nat) (q : β), l[j]? = some q → (l.map f).Nodup →
      ∀ x ∈ l.eraseIdx j, f x ≠ f q := by
  intro l
  induction l with
  | nil => intro j q hj; simp at hj
  | cons b rest ih =>
    intro j q hj hnd x hx
    simp only [List.map_cons, List.nodup_cons] at hnd
    obtain ⟨hb, hrest⟩ := hnd
    cases j with
    | zero =>
      rw [List.getElem?_cons_zero] at hj
      injection hj with h2
      subst h2
      have hx' : x ∈ rest := by simpa [List.eraseIdx] using hx
      intro he
      exact hb (he ▸ List.mem_map_of_mem f hx')
    | succ j' =>
      rw [List.getElem?_cons_succ] at hj
      have hx' : x = b ∨ x ∈ rest.eraseIdx j' := by simpa [List.eraseIdx] using hx
      rcases hx' with rfl | hx'
      · intro he
        have hqm : q ∈ rest := mem_of_getElem?_some hj
        exact hb (he ▸ List.mem_map_of_mem f hqm)
      · exact ih j' q hj hrest x hx'

/-- C4: when the 30-second queue deadline of a still-queued approval request
fires, the queued entry is removed from the queue and the caller's promise is
rejected with the tool-call-never-arrived error, and no queue entry of that
caller remains afterwards. -/
theorem C4_queue_deadline_rejects [DecidableEq α] (s : CorrState α)
    (tid cid j : Nat) (q : QueuedReq α)
    (hfind : s.armedTimers.find? (fun t => t.tid == tid) =
      some { tid := tid, job := TimerJob.queueTimeout cid })
    (hq : findIdxByCaller cid s.queue = some (j, q))
    (hnd : (s.queue.map (fun q' => q'.callerId)).Nodup) :
    (fireTimer tid s).outcomes =
      s.outcomes ++ [(cid, Outcome.toolCallNeverArrived q.reqName)] ∧
    q.callerId = cid ∧
    (fireTimer tid s).queue = s.queue.eraseIdx j ∧
    ∀ q' ∈ (fireTimer tid s).queue, q'.callerId ≠ cid := by
  obtain ⟨hq1, hq2⟩ := findIdxByCaller_some_char hq
  have hstep : fireTimer tid s =
      { s with
        armedTimers := clearTimer tid s.armedTimers
        queue := removeAt j s.queue
        outcomes := s.outcomes ++ [(cid, Outcome.toolCallNeverArrived q.reqName)] } := by
    simp only [fireTimer]
    rw [hfind]
    simp only [runQueueTimeout]
    rw [hq]
  refine ⟨by rw [hstep], hq2, by rw [hstep]; rfl, ?_⟩
  rw [hstep]
  intro q' hq'
  have h0 := eraseIdx_no_dup_key (fun qq : QueuedReq α => qq.callerId) s.queue j q hq1 hnd q' hq'
  have h2 : q'.callerId ≠ q.callerId := h0
  rw [hq2] at h2
  exact h2

/-- C4, witness: a queued submit of `(Bash, ls)` whose 30-second timer fires
with no matching record. -/
theorem C4_queue_deadline_rejects_witness :
    (fireTimer 0 (runEvents [Ev.submit "Bash" "ls"])).outcomes =
      (runEvents [Ev.submit "Bash" "ls"]).outcomes ++
        [(0, Outcome.toolCallNeverArrived "Bash")] ∧
    ({ reqName := "Bash", reqArgs := "ls", callerId := 0, timerId := 0 } :
      QueuedReq String).callerId = 0 ∧
    (fireTimer 0 (runEvents [Ev.submit "Bash" "ls"])).queue =
      (runEvents [Ev.submit "Bash" "ls"]).queue.eraseIdx 0 := by
  have h := C4_queue_deadline_rejects (runEvents [Ev.submit "Bash" "ls"]) 0 0 0
    { reqName := "Bash", reqArgs := "ls", callerId := 0, timerId := 0 }
    (by decide) (by decide) (by decide)
  exact ⟨h.1, h.2.1, h.2.2.1⟩

theorem find?_clearTimer_none (tid : Nat) (l : List Timer) :
    (clearTimer tid l).find? (fun t => t.tid == tid) = none := by
  rw [List.find?_eq_none]
  intro x hx
  have h := (mem_clearTimer hx).2
  simp [h]

theorem fireTimer_disarmed [DecidableEq α] (tid : Nat) (s : CorrState α)
    (h : s.armedTimers.find? (fun t => t.tid == tid) = none) :
    fireTimer tid s = s := by
  simp only [fireTimer]
  rw [h]

/-- C5: a pending decision whose 4.5-minute deadline fires is removed from the
live resolver map, its externally synchronized state moves from the pending
table to the completed table as canceled with reason Timeout, the timer cannot
fire a second time (the first firing disarms it), and any decision message
whose id has no pending resolver leaves the whole state unchanged (it is
logged and dropped, not an error). -/
theorem C5_decision_timeout_exactly_once [DecidableEq α] (s : CorrState α)
    (tid : Nat) (rid : String) (e : PendingDecision) (req : ReqInfo α)
    (hfind : s.armedTimers.find? (fun t => t.tid == tid) =
      some { tid := tid, job := TimerJob.decisionTimeout rid })
    (_hpd : alookup rid s.pendingDecisions = some e)
    (hreq : alookup rid s.agent.requests = some req) :
    alookup rid (fireTimer tid s).pendingDecisions = none ∧
    alookup rid (fireTimer tid s).agent.requests = none ∧
    alookup rid (fireTimer tid s).agent.completedRequests =
      some { tool := req.tool, arguments := req.arguments,
             status := ReqStatus.canceled, reason := some "Timeout" } ∧
    fireTimer tid (fireTimer tid s) = fireTimer tid s ∧
    (∀ (s2 : CorrState α) (msg : Decision),
      alookup msg.id s2.pendingDecisions = none → stepDecision msg s2 = s2) := by
  have hstep : fireTimer tid s =
      { s with
        armedTimers := clearTimer tid s.armedTimers
        pendingDecisions := aerase rid s.pendingDecisions
        agent :=
          { requests := aerase rid s.agent.requests
            completedRequests :=
              aset rid
                { tool := req.tool, arguments := req.arguments,
                  status := ReqStatus.canceled, reason := some "Timeout" }
                s.agent.completedRequests } } := by
    simp only [fireTimer]
    rw [hfind]
    simp only [runDecisionTimeout, cancelOnTimeout]
    rw [hreq]
  refine ⟨?_, ?_, ?_, ?_, ?_⟩
  · rw [hstep]
    exact alookup_aerase_self rid s.pendingDecisions
  · rw [hstep]
    exact alookup_aerase_self rid s.agent.requests
  · rw [hstep]
    exact alookup_aset_self rid _ _
  · apply fireTimer_disarmed
    rw [hstep]
    exact find?_clearTimer_none tid s.armedTimers
  · intro s2 msg hnone
    simp only [stepDecision]
    rw [hnone]

/-- C5, witness: a pending decision for `tc_1` whose decision timer fires. -/
theorem C5_decision_timeout_witness :
    alookup "tc_1" (fireTimer 0 sC5).pendingDecisions = none ∧
    alookup "tc_1" (fireTimer 0 sC5).agent.requests = none ∧
    alookup "tc_1" (fireTimer 0 sC5).agent.completedRequests =
      some { tool := "Bash", arguments := "ls",
             status := ReqStatus.canceled, reason := some "Timeout" } ∧
    fireTimer 0 (fireTimer 0 sC5) = fireTimer 0 sC5 := by
  have h := C5_decision_timeout_exactly_once sC5 0 "tc_1"
    { callerId := 0, isPlanExit := false, timerId := 0 }
    { tool := "Bash", arguments := "ls" }
    (by decide) (by decide) (by decide)
  exact ⟨h.1, h.2.1, h.2.2.1, h.2.2.2.1⟩

/-- C9: a timer firing after its request reached a terminal state changes
nothing it guards: a decision timer whose request id is no longer pending in
the agent state leaves the agent state untouched; a queue timer whose entry is
gone leaves queue, outcomes and agent state untouched; and in particular any
timer firing after a reset leaves the reset agent state untouched. -/
theorem C9_stale_timer_no_reterminate [DecidableEq α] :
    (∀ (s : CorrState α) (tid : Nat) (rid : String),
      s.armedTimers.find? (fun t => t.tid == tid) =
        some { tid := tid, job := TimerJob.decisionTimeout rid } →
      alookup rid s.agent.requests = none →
      (fireTimer tid s).agent = s.agent) ∧
    (∀ (s : CorrState α) (tid cid : Nat),
      s.armedTimers.find? (fun t => t.tid == tid) =
        some { tid := tid, job := TimerJob.queueTimeout cid } →
      findIdxByCaller cid s.queue = none →
      (fireTimer tid s).queue = s.queue ∧ (fireTimer tid s).outcomes = s.outcomes ∧
        (fireTimer tid s).agent = s.agent) ∧
    (∀ (s : CorrState α) (tid : Nat),
      (fireTimer tid (stepReset s)).agent = (stepReset s).agent) := by
  refine ⟨?_, ?_, ?_⟩
  · intro s tid rid hfind hnone
    simp only [fireTimer]
    rw [hfind]
    simp only [runDecisionTimeout, cancelOnTimeout]
    rw [hnone]
  · intro s tid cid hfind hnone
    have hstep : fireTimer tid s = { s with armedTimers := clearTimer tid s.armedTimers } := by
      simp only [fireTimer]
      rw [hfind]
      simp only [runQueueTimeout]
      rw [hnone]
    exact ⟨by rw [hstep], by rw [hstep], by rw [hstep]⟩
  · intro s tid
    cases hf : (stepReset s).armedTimers.find? (fun t => t.tid == tid) with
    | none =>
      rw [fireTimer_disarmed tid _ hf]
    | some t =>
      cases t with
      | mk ttid tjob =>
        cases tjob with
        | queueTimeout cid =>
          simp only [fireTimer]
          rw [hf]
          rfl
        | decisionTimeout rid =>
          simp only [fireTimer]
          rw [hf]
          rfl

/-- C9, witness: the 4.5-minute decision timer that survived a reset fires on
the reset state and does not re-terminate the already-reset request. -/
theorem C9_stale_timer_witness :
    (fireTimer 0 sC9).agent = sC9.agent := by
  have h := (C9_stale_timer_no_reterminate (α := String)).1 sC9 0 "tc_1"
    (by decide) (by decide)
  exact h

theorem stepDecision_agent_of_pending [DecidableEq α] {msg : Decision}
    {s : CorrState α} {e : PendingDecision}
    (hpd : alookup msg.id s.pendingDecisions = some e) :
    (stepDecision msg s).agent = completeOnDecision msg s.agent := by
  simp only [stepDecision, hpd]
  split <;> rfl

/-- C6: on a request pending under the plan-exit resolver (installed for both
spellings of the plan-exit tool), an approving decision does not return
approval to the caller: the synthetic restart instruction is pushed onto the
front of the session instruction queue carrying the supplied mode when it is
one of default, acceptEdits or bypassPermissions and the mode default
otherwise, and the caller promise resolves to approved false with the
plan-rejection sentinel; a denying decision is passed through unchanged. -/
theorem C6_plan_exit_intercept [DecidableEq α] (s : CorrState α) (msg : Decision)
    (e : PendingDecision)
    (hpd : alookup msg.id s.pendingDecisions = some e)
    (hplan : e.isPlanExit = true) :
    (∀ name : String, isPlanExitName name = true ↔
      (name = "exit_plan_mode" ∨ name = "ExitPlanMode")) ∧
    (msg.approved = true →
      (stepDecision msg s).instrQueue =
        (PLAN_FAKE_RESTART, normalizeMode msg.mode) :: s.instrQueue ∧
      (∀ m : PermMode, msg.mode = some m →
        (m = PermMode.default ∨ m = PermMode.acceptEdits ∨ m = PermMode.bypassPermissions) →
        normalizeMode msg.mode = m) ∧
      ((msg.mode = none ∨ msg.mode = some PermMode.plan) →
        normalizeMode msg.mode = PermMode.default) ∧
      (stepDecision msg s).outcomes = s.outcomes ++
        [(e.callerId, Outcome.resolved false (some PLAN_FAKE_REJECT) none)]) ∧
    (msg.approved = false →
      (stepDecision msg s).outcomes = s.outcomes ++
        [(e.callerId, Outcome.resolved msg.approved msg.reason msg.mode)] ∧
      (stepDecision msg s).instrQueue = s.instrQueue) := by
  refine ⟨?_, ?_, ?_⟩
  · intro name
    simp [isPlanExitName]
  · intro happ
    have hcond : (e.isPlanExit && msg.approved) = true := by
      rw [hplan, happ]
      rfl
    have hstep : stepDecision msg s =
        { s with
          responses := aset msg.id msg s.responses
          pendingDecisions := aerase msg.id s.pendingDecisions
          instrQueue := (PLAN_FAKE_RESTART, normalizeMode msg.mode) :: s.instrQueue
          outcomes := s.outcomes ++
            [(e.callerId, Outcome.resolved false (some PLAN_FAKE_REJECT) none)]
          armedTimers := clearTimer e.timerId s.armedTimers
          agent := completeOnDecision msg s.agent } := by
      simp only [stepDecision, hpd]
      rw [if_pos hcond]
    refine ⟨by rw [hstep], ?_, ?_, by rw [hstep]⟩
    · intro m hm hmem
      rw [hm]
      rcases hmem with rfl | rfl | rfl <;> rfl
    · intro hmode
      rcases hmode with h | h <;> rw [h] <;> rfl
  · intro happ
    have hcond : ¬((e.isPlanExit && msg.approved) = true) := by
      rw [happ]
      simp
    have hstep : stepDecision msg s =
        { s with
          responses := aset msg.id msg s.responses
          pendingDecisions := aerase msg.id s.pendingDecisions
          outcomes := s.outcomes ++
            [(e.callerId, Outcome.resolved msg.approved msg.reason msg.mode)]
          armedTimers := clearTimer e.timerId s.armedTimers
          agent := completeOnDecision msg s.agent } := by
      simp only [stepDecision, hpd]
      rw [if_neg hcond]
    exact ⟨by rw [hstep], by rw [hstep]⟩

/-- C6, witness: an approving decision with mode acceptEdits on a pending
plan-exit request (PascalCase spelling) injects the restart instruction with
mode acceptEdits and resolves the caller with the fake rejection. -/
theorem C6_plan_exit_intercept_witness :
    (stepDecision msgC6 sC6).instrQueue =
      (PLAN_FAKE_RESTART, normalizeMode msgC6.mode) :: sC6.instrQueue ∧
    (stepDecision msgC6 sC6).outcomes = sC6.outcomes ++
      [(0, Outcome.resolved false (some PLAN_FAKE_REJECT) none)] := by
  have h := C6_plan_exit_intercept sC6 msgC6
    { callerId := 0, isPlanExit := true, timerId := 0 }
    (by decide) (by decide)
  exact ⟨(h.2.1 rfl).1, (h.2.1 rfl).2.2.2⟩

/-- C7: counterexample.  The trace records `exit_plan_mode` as `tc_1`, submits
it, and delivers the decision approved true with mode acceptEdits.  The
restart instruction is enqueued with mode acceptEdits and the completed entry
has status approved, yet it carries the inbound decision message reason —
none — rather than the reason Plan approved the claim requires: the
completion handler tests the inbound decision message for the fake-rejection
sentinel, and an approving inbound message never carries it. -/
theorem C7_counterexample :
    alookup "tc_1" (runEvents traceC7).agent.completedRequests =
      some { tool := "exit_plan_mode", arguments := "plan-args",
             status := ReqStatus.approved, reason := none } ∧
    (runEvents traceC7).instrQueue = [(PLAN_FAKE_RESTART, PermMode.acceptEdits)] ∧
    alookup "tc_1" (runEvents traceC7).agent.completedRequests ≠
      some { tool := "exit_plan_mode", arguments := "plan-args",
             status := ReqStatus.approved, reason := some "Plan approved" } := by
  decide

/-- C7 (amended): after a decision on a pending request, the completed entry
carries the status derived from the inbound decision message and the inbound
message reason: an approving decision yields status approved with the inbound
reason (none in the spec example, not Plan approved); the reason Plan
approved appears exactly when the inbound message itself is the fake
rejection — approved false with the plan-rejection sentinel — on the
snake-case plan-exit tool. -/
theorem C7_completed_entry_amended [DecidableEq α] (s : CorrState α)
    (msg : Decision) (e : PendingDecision) (req : ReqInfo α)
    (hpd : alookup msg.id s.pendingDecisions = some e)
    (hreq : alookup msg.id s.agent.requests = some req) :
    (msg.approved = true →
      alookup msg.id (stepDecision msg s).agent.completedRequests =
        some { tool := req.tool, arguments := req.arguments,
               status := ReqStatus.approved, reason := msg.reason }) ∧
    (msg.approved = false → msg.reason = some PLAN_FAKE_REJECT →
      req.tool = "exit_plan_mode" →
      alookup msg.id (stepDecision msg s).agent.completedRequests =
        some { tool := req.tool, arguments := req.arguments,
               status := ReqStatus.approved, reason := some "Plan approved" }) := by
  have hagent := stepDecision_agent_of_pending hpd
  constructor
  · intro happ
    rw [hagent]
    simp only [completeOnDecision, hreq]
    rw [if_neg (by simp [happ])]
    rw [show (if msg.approved then ReqStatus.approved else ReqStatus.denied) =
      ReqStatus.approved from by rw [happ]; rfl]
    exact alookup_aset_self msg.id _ _
  · intro happ hreason htool
    rw [hagent]
    simp only [completeOnDecision, hreq]
    rw [if_pos ⟨htool, happ, hreason⟩]
    exact alookup_aset_self msg.id _ _

/-- C7 (amended), witness: the approving decision of the spec example yields
a completed entry with status approved and the inbound (absent) reason. -/
theorem C7_completed_entry_witness :
    alookup "tc_1" (stepDecision msgC7 sC7).agent.completedRequests =
      some { tool := "exit_plan_mode", arguments := "plan-args",
             status := ReqStatus.approved, reason := none } := by
  have h := C7_completed_entry_amended sC7 msgC7
    { callerId := 0, isPlanExit := true, timerId := 0 }
    { tool := "exit_plan_mode", arguments := "plan-args" }
    (by decide) (by decide)
  exact h.1 rfl

theorem mem_foldl_clearTimer :
    ∀ (qs : List (QueuedReq α)) (acc : List Timer) (t : Timer),
      t ∈ qs.foldl (fun a q => clearTimer q.timerId a) acc → t ∈ acc := by
  intro qs
  induction qs with
  | nil => intro acc t h; exact h
  | cons q0 rest ih =>
    intro acc t h
    have h1 := ih (clearTimer q0.timerId acc) t h
    exact (mem_clearTimer h1).1

theorem foldl_clearTimer_clears :
    ∀ (qs : List (QueuedReq α)) (acc : List Timer) (q : QueuedReq α), q ∈ qs →
      ∀ t ∈ qs.foldl (fun a q' => clearTimer q'.timerId a) acc, t.tid ≠ q.timerId := by
  intro qs
  induction qs with
  | nil => intro acc q hq; exact absurd hq (List.not_mem_nil q)
  | cons q0 rest ih =>
    intro acc q hq t ht
    rcases List.mem_cons.mp hq with rfl | hq'
    · have h1 := mem_foldl_clearTimer rest (clearTimer q.timerId acc) t ht
      exact (mem_clearTimer h1).2
    · exact ih (clearTimer q0.timerId acc) q hq' t ht

theorem alookup_foldl_aset_of_not_mem {κ β γ : Type} [DecidableEq κ] (g : κ × β → γ) :
    ∀ (l : List (κ × β)) (init : List (κ × γ)) (k : κ), k ∉ l.map Prod.fst →
      alookup k (l.foldl (fun acc p => aset p.1 (g p) acc) init) = alookup k init := by
  intro l
  induction l with
  | nil => intro init k _; rfl
  | cons p rest ih =>
    intro init k hk
    simp only [List.map_cons, List.mem_cons] at hk
    push_neg at hk
    have h1 : alookup k (rest.foldl (fun acc p' => aset p'.1 (g p') acc)
        (aset p.1 (g p) init)) = alookup k (aset p.1 (g p) init) :=
      ih (aset p.1 (g p) init) k hk.2
    have h2 : alookup k (aset p.1 (g p) init) = alookup k init :=
      alookup_aset_ne hk.1 (g p) init
    exact h1.trans h2

theorem alookup_foldl_aset {κ β γ : Type} [DecidableEq κ] (g : κ × β → γ) :
    ∀ (l : List (κ × β)) (init : List (κ × γ)), (l.map Prod.fst).Nodup →
      ∀ p ∈ l, alookup p.1 (l.foldl (fun acc p' => aset p'.1 (g p') acc) init) =
        some (g p) := by
  intro l
  induction l with
  | nil => intro init _ p hp; exact absurd hp (List.not_mem_nil p)
  | cons p0 rest ih =>
    intro init hnd p hp
    simp only [List.map_cons, List.nodup_cons] at hnd
    obtain ⟨h0, hrest⟩ := hnd
    rcases List.mem_cons.mp hp with rfl | hp'
    · have h1 : alookup p.1 (rest.foldl (fun acc p' => aset p'.1 (g p') acc)
          (aset p.1 (g p) init)) = alookup p.1 (aset p.1 (g p) init) :=
        alookup_foldl_aset_of_not_mem g rest (aset p.1 (g p) init) p.1 h0
      rw [show (p :: rest).foldl (fun acc p' => aset p'.1 (g p') acc) init =
        rest.foldl (fun acc p' => aset p'.1 (g p') acc) (aset p.1 (g p) init) from rfl]
      rw [h1]
      exact alookup_aset_self p.1 (g p) init
    · exact ih (aset p0.1 (g p0) init) hrest p hp'

/-- C8: counterexample.  A record followed by a matching submit creates a
pending decision whose 4.5-minute timer is armed; the reset that follows
cancels only the queued 30-second timers, so this decision timer is still
armed afterwards — the claim that zero armed timers remain is false. -/
theorem C8_counterexample :
    (runEvents traceC8).armedTimers =
      [{ tid := 0, job := TimerJob.decisionTimeout "tc_1" }] ∧
    (runEvents traceC8).armedTimers ≠ [] := by
  decide

/-- C8 (amended): reset empties the ledger, the queue, the resolver map and
the response map, cancels every queued 30-second timer, moves every pending
agent-state request to the completed table as canceled with reason Session
switched to local mode, and is idempotent; the armed 4.5-minute decision
timers of pending decisions are not cancelled (see the counterexample),
though their later firing no longer changes any state (claim C9). -/
theorem C8_reset_amended [DecidableEq α] (s : CorrState α)
    (hkeys : (s.agent.requests.map Prod.fst).Nodup) :
    (stepReset s).toolCalls = [] ∧
    (stepReset s).queue = [] ∧
    (stepReset s).pendingDecisions = [] ∧
    (stepReset s).responses = [] ∧
    (stepReset s).agent.requests = [] ∧
    (∀ q ∈ s.queue, ∀ t ∈ (stepReset s).armedTimers, t.tid ≠ q.timerId) ∧
    (∀ p ∈ s.agent.requests,
      alookup p.1 (stepReset s).agent.completedRequests =
        some { tool := p.2.tool, arguments := p.2.arguments,
               status := ReqStatus.canceled,
               reason := some "Session switched to local mode" }) ∧
    stepReset (stepReset s) = stepReset s := by
  refine ⟨rfl, rfl, rfl, rfl, rfl, ?_, ?_, ?_⟩
  · intro q hq t ht
    exact foldl_clearTimer_clears s.queue s.armedTimers q hq t ht
  · intro p hp
    exact alookup_foldl_aset
      (fun p' => { tool := p'.2.tool, arguments := p'.2.arguments,
                   status := ReqStatus.canceled,
                   reason := some "Session switched to local mode" })
      s.agent.requests s.agent.completedRequests hkeys p hp
  · rfl

/-- C8 (amended), witness: reset of a state holding one pending decision. -/
theorem C8_reset_witness :
    (stepReset sC8).toolCalls = [] ∧
    (stepReset sC8).queue = [] ∧
    (stepReset sC8).pendingDecisions = [] ∧
    (stepReset sC8).responses = [] ∧
    (stepReset sC8).agent.requests = [] ∧
    stepReset (stepReset sC8) = stepReset sC8 := by
  have h := C8_reset_amended sC8 (by decide)
  exact ⟨h.1, h.2.1, h.2.2.1, h.2.2.2.1, h.2.2.2.2.1, h.2.2.2.2.2.2.2⟩

end HappyCLI
